/-
Verification of the ipfs-webdav filesystem adapter (src/fs.rs, src/cache.rs,
src/api.rs) against its natural-language specification.

Shallow embedding conventions:
  * Rust `String` paths are modelled as `List Char` (`PathStr`).
  * `std::time::SystemTime` is modelled as `Nat` (an abstract timestamp).
  * The `HashMap<String, PeerNode>` inside `Cache` is modelled as an
    association list with the usual lookup/insert/remove operations; a
    `HashMap` has no observable iteration order, so the subtree-rewrite
    loops (`mv_vals`, `cp_vals`) iterate the snapshot in list order.
  * Each adapter operation performs at most one RemoteStore (`PeerApi`)
    call; the outcome of that call is passed in as an explicit oracle
    argument (`Option _` for calls returning data, `Bool` for calls
    returning `Result<(), _>`).  Operations additionally return the
    request they issued (as a `WriteCall`/`ReadCall` record or a `Bool`
    "call issued" flag) where a claim is about the calls made.
  * Fallible operations return `Except FsError _`; mutating adapter
    operations return the result paired with the post-state of the cache.
-/
import Mathlib

/-- A Rust `String` path, modelled as its character list. -/
abbrev PathStr := List Char

/-- The subset of `webdav_handler::fs::FsError` variants this crate produces. -/
inductive FsError where
  | NotFound
  | Forbidden
  | Exists
  | GeneralFailure
deriving DecidableEq, Repr

/-- `webdav_handler::fs::DavProp` (name, namespace, prefix, xml payload). -/
structure DavProp where
  name : String
  ns : Option String
  pfx : Option String
  xml : Option (List Nat)
deriving DecidableEq, Repr

/-- `PeerDirNode` from src/fs.rs. -/
structure PeerDirNode where
  mtime : Nat
  crtime : Nat
  props : List (String × DavProp)
deriving DecidableEq, Repr

/-- `PeerFileNode` from src/fs.rs. -/
structure PeerFileNode where
  mtime : Nat
  crtime : Nat
  props : List (String × DavProp)
  size : Nat
deriving DecidableEq, Repr

/-- `PeerNode` from src/fs.rs: a cached directory or file snapshot. -/
inductive PeerNode where
  | Dir (d : PeerDirNode)
  | File (f : PeerFileNode)
deriving DecidableEq, Repr

/-- `PeerEntry` from src/api.rs: a raw listing/stat entry. -/
structure PeerEntry where
  path : PathStr
  crtime : Nat
  mtime : Nat
  is_dir : Bool
  size : Nat
deriving DecidableEq, Repr

/-- `webdav_handler::fs::OpenOptions` (the fields used by this crate). -/
structure OpenOptions where
  read : Bool
  write : Bool
  append : Bool
  truncate : Bool
  create : Bool
  create_new : Bool
deriving DecidableEq, Repr

/-- `PeerFsFile` from src/fs.rs, without the `api`/`cache` handles (the
cache is passed explicitly to the operations that touch it). -/
structure PeerFsFile where
  path : PathStr
  mtime : Nat
  crtime : Nat
  pos : Nat
  size : Nat
  append : Bool
  truncate : Bool
deriving DecidableEq, Repr

/-- `PeerFsEntry` from src/fs.rs: the protocol-facing entry/metadata view. -/
structure PeerFsEntry where
  mtime : Nat
  crtime : Nat
  is_dir : Bool
  name : PathStr
  size : Nat
deriving DecidableEq, Repr

/-- `std::io::SeekFrom`. -/
inductive SeekFrom where
  | Start (n : Nat)
  | Current (n : Int)
  | End (n : Int)
deriving DecidableEq, Repr

/-- The error produced by `PeerFsFile::seek` on underflow:
`Error::new(ErrorKind::InvalidInput, "invalid seek")`.  The conversion
into the host layer's error type lives in the external `webdav_handler`
crate, so the error is modelled by its `ErrorKind`. -/
inductive SeekError where
  | invalidInput
deriving DecidableEq, Repr

/-- The RemoteStore write request issued by `PeerFsFile::do_write`. -/
structure WriteCall where
  path : PathStr
  offset : Nat
  truncate : Bool
  data : List Nat
deriving DecidableEq, Repr

/-- The RemoteStore read request issued by `PeerFsFile::read_bytes`. -/
structure ReadCall where
  path : PathStr
  offset : Nat
  count : Nat
deriving DecidableEq, Repr

/-- `normalize_hash` from src/cache.rs: pop one trailing slash, if any.
Note that it maps the root `"/"` to the empty string. -/
def normalize_hash (hash : PathStr) : PathStr :=
  if hash.getLast? = some '/' then hash.dropLast else hash

/-- `add_slash` from src/cache.rs: append a slash unless one is already there. -/
def add_slash (hash : PathStr) : PathStr :=
  if hash.getLast? = some '/' then hash else hash ++ ['/']

/-- `normalize_path` from src/api.rs: pop one trailing slash unless the
path has length at most 1 (so the root `"/"` is preserved). -/
def normalize_path (path : PathStr) : PathStr :=
  if path.length > 1 ∧ path.getLast? = some '/' then path.dropLast else path

/-- Drop every trailing `'/'` (helper for the `std::path::Path` model). -/
def rstripSlashes (p : PathStr) : PathStr :=
  (p.reverse.dropWhile (fun c => c = '/')).reverse

/-- `parent_path` from src/fs.rs, i.e.
`Path::new(path).parent().unwrap()` for paths that do have a parent.
For the root `"/"` (where the Rust code would panic on the `unwrap`) the
model returns `[]`; theorems about `create_dir` therefore carry the
hypothesis `rstripSlashes path ≠ []`. -/
def parent_path (p : PathStr) : PathStr :=
  let q := rstripSlashes p
  let r := (q.reverse.dropWhile (fun c => c ≠ '/')).reverse
  let r2 := rstripSlashes r
  if r2 = [] then (if r = [] then [] else ['/']) else r2

/-- `Path::file_name()` as used by `PeerNode::to_entry`: the last path
segment, or `none` for the root. -/
def file_name (p : PathStr) : Option PathStr :=
  let q := rstripSlashes p
  if q = [] then none
  else some ((q.reverse.takeWhile (fun c => c ≠ '/')).reverse)

/-- Recursion core of `replaceOcc`, structurally recursive on a fuel
argument (each step consumes at least one character, so fuel
`s.length` suffices and the `0, s => s` fallthrough is unreachable). -/
def replaceOccGo (fromP toP : PathStr) : Nat → PathStr → PathStr
  | _, [] => []
  | 0, s => s
  | fuel + 1, c :: rest =>
      if fromP.isPrefixOf (c :: rest) ∧ fromP ≠ [] then
        toP ++ replaceOccGo fromP toP fuel (rest.drop (fromP.length - 1))
      else
        c :: replaceOccGo fromP toP fuel rest

/-- Rust `str::replace(fromP, toP)`: replace every (leftmost,
non-overlapping) occurrence of `fromP` by `toP`.  For the empty pattern
Rust inserts `toP` at every character boundary; that case is never
exercised by the claims and the model leaves the string unchanged there,
so theorems involving `replaceOcc` assume a non-empty pattern. -/
def replaceOcc (fromP toP : PathStr) (s : PathStr) : PathStr :=
  replaceOccGo fromP toP s.length s

/-- Equality of `Except` values is decidable (needed to settle concrete
instances of the adapter operations by `decide`). -/
instance {ε α : Type} [DecidableEq ε] [DecidableEq α] : DecidableEq (Except ε α) := fun x y =>
  match x, y with
  | .ok a, .ok b => decidable_of_iff (a = b) (by simp)
  | .error a, .error b => decidable_of_iff (a = b) (by simp)
  | .ok _, .error _ => isFalse (fun h => by cases h)
  | .error _, .ok _ => isFalse (fun h => by cases h)

/-- The selection predicate of `Cache::mv_vals` / `Cache::cp_vals`:
`k == from || k.starts_with(&prefix)` where `prefix = add_slash(from)`. -/
def matchKey (f k : PathStr) : Bool :=
  k == f || (add_slash f).isPrefixOf k

/-- The `HashMap<String, PeerNode>` inside `Cache`, as an association list. -/
abbrev CacheMap := List (PathStr × PeerNode)

/-- `HashMap::get`. -/
def lookupMap (k : PathStr) : CacheMap → Option PeerNode
  | [] => none
  | (k', v) :: rest => if k = k' then some v else lookupMap k rest

/-- `HashMap::remove`. -/
def removeMap (k : PathStr) : CacheMap → CacheMap
  | [] => []
  | (k', v) :: rest => if k' = k then removeMap k rest else (k', v) :: removeMap k rest

/-- `HashMap::insert` (overwrites any existing binding of the key). -/
def insertMap (k : PathStr) (v : PeerNode) (m : CacheMap) : CacheMap :=
  removeMap k m ++ [(k, v)]

/-- `Cache::contains` from src/cache.rs. -/
def Cache.contains (m : CacheMap) (hash : PathStr) : Bool :=
  (lookupMap (normalize_hash hash) m).isSome

/-- `Cache::get` from src/cache.rs. -/
def Cache.get (m : CacheMap) (hash : PathStr) : Except FsError PeerNode :=
  match lookupMap (normalize_hash hash) m with
  | none => .error FsError.NotFound
  | some v => .ok v

/-- `Cache::insert` from src/cache.rs. -/
def Cache.insert (m : CacheMap) (hash : PathStr) (node : PeerNode) : CacheMap :=
  insertMap (normalize_hash hash) node m

/-- `Cache::remove` from src/cache.rs. -/
def Cache.remove (m : CacheMap) (hash : PathStr) : CacheMap :=
  removeMap (normalize_hash hash) m

/-- One iteration of the `mv_vals` loop: `cache.remove(k)` followed by
`cache.insert(k.replace(from, to), v)`. -/
def mvStep (f t : PathStr) (acc : CacheMap) (kv : PathStr × PeerNode) : CacheMap :=
  insertMap (replaceOcc f t kv.1) kv.2 (removeMap kv.1 acc)

/-- `Cache::mv_vals` from src/cache.rs: snapshot the map, keep the
entries whose key equals `from` or starts with `from + "/"`, and for each
remove it and reinsert it under `k.replace(from, to)` (a whole-string
substring replacement, not a prefix replacement). -/
def Cache.mv_vals (m : CacheMap) (fromP toP : PathStr) : CacheMap :=
  (m.filter (fun kv => matchKey (normalize_hash fromP) kv.1)).foldl
    (mvStep (normalize_hash fromP) (normalize_hash toP)) m

/-- One iteration of the `cp_vals` loop: `cache.get(k)` on the live map,
then `cache.insert(k.replace(from, to), v.clone())`. -/
def cpStep (f t : PathStr) (acc : CacheMap) (kv : PathStr × PeerNode) : CacheMap :=
  match lookupMap kv.1 acc with
  | some v => insertMap (replaceOcc f t kv.1) v acc
  | none => acc

/-- `Cache::cp_vals` from src/cache.rs. -/
def Cache.cp_vals (m : CacheMap) (fromP toP : PathStr) : CacheMap :=
  (m.filter (fun kv => matchKey (normalize_hash fromP) kv.1)).foldl
    (cpStep (normalize_hash fromP) (normalize_hash toP)) m

/-- `PeerNode::is_dir`. -/
def PeerNode.is_dir : PeerNode → Bool
  | .Dir _ => true
  | .File _ => false

/-- `PeerNode::as_file`. -/
def PeerNode.as_file : PeerNode → Except FsError PeerFileNode
  | .File f => .ok f
  | .Dir _ => .error FsError.Forbidden

/-- `PeerNode::from_api_entry`. -/
def PeerNode.from_api_entry (entry : PeerEntry) : PeerNode :=
  if entry.is_dir then
    .Dir { crtime := entry.crtime, mtime := entry.mtime, props := [] }
  else
    .File { crtime := entry.crtime, mtime := entry.mtime, props := [], size := entry.size }

/-- `PeerNode::from_fs_file`: the File node synthesized from a handle. -/
def PeerNode.from_fs_file (file : PeerFsFile) : PeerNode :=
  .File { crtime := file.crtime, mtime := file.mtime, props := [], size := file.size }

/-- `PeerNode::to_entry`. -/
def PeerNode.to_entry (node : PeerNode) (path : PathStr) : PeerFsEntry :=
  let name := match file_name path with
    | none => "/".toList
    | some s => s
  match node with
  | .Dir d => { mtime := d.mtime, crtime := d.crtime, is_dir := true, name := name, size := 0 }
  | .File f => { mtime := f.mtime, crtime := f.crtime, is_dir := false, name := name, size := f.size }

/-- `PeerFs::do_open` from src/fs.rs.  `now` models `SystemTime::now()`.
The cache is threaded through and returned so that the statement "open
leaves the cache unchanged" is about this definition.  The Rust
`node.as_file().unwrap().size` is reached only after `node.is_dir()` has
been ruled out, so it is modelled by matching the `File` variant
directly. -/
def do_open (fs : CacheMap) (path : PathStr) (options : OpenOptions) (now : Nat) :
    Except FsError PeerFsFile × CacheMap :=
  match Cache.get fs path with
  | .ok node =>
      if options.create_new then (.error FsError.Exists, fs)
      else
        match node with
        | .Dir _ => (.error FsError.Forbidden, fs)
        | .File fnode =>
            (.ok { path := path, mtime := now, crtime := now, pos := 0,
                   size := fnode.size, append := options.append,
                   truncate := options.truncate }, fs)
  | .error FsError.NotFound =>
      if !options.create then (.error FsError.NotFound, fs)
      else
        (.ok { path := path, mtime := now, crtime := now, pos := 0,
               size := 0, append := options.append,
               truncate := options.truncate }, fs)
  | .error e => (.error e, fs)

/-- `PeerFs::read_dir` from src/fs.rs.  `lsRes` is the outcome of
`api.ls(&path)` (`none` models `Err(_)`).  Returns the produced entry
views and the post-state of the cache. -/
def read_dir (fs : CacheMap) (lsRes : Option (List PeerEntry)) :
    List PeerFsEntry × CacheMap :=
  match lsRes with
  | none => ([], fs)
  | some entries =>
      entries.foldl
        (fun acc entry =>
          let node := PeerNode.from_api_entry entry
          (acc.1 ++ [node.to_entry entry.path], Cache.insert acc.2 entry.path node))
        ([], fs)

/-- `PeerFs::metadata` from src/fs.rs.  `statRes` is the outcome of
`api.stat(&path)`.  The third component records whether a RemoteStore
stat call was issued. -/
def metadata (fs : CacheMap) (path : PathStr) (statRes : Option PeerEntry) :
    Except FsError PeerFsEntry × CacheMap × Bool :=
  let step : CacheMap × Bool :=
    if !(Cache.contains fs path) then
      match statRes with
      | some entry => (Cache.insert fs path (PeerNode.from_api_entry entry), true)
      | none => (fs, true)
    else (fs, false)
  match Cache.get step.1 path with
  | .error e => (.error e, step.1, step.2)
  | .ok node => (.ok (node.to_entry path), step.1, step.2)

/-- `PeerFs::create_dir` from src/fs.rs.  `mkdirRes` is the outcome of
`api.mkdir(&path)`; when it is reached and fails (`none`), the operation
still returns `Ok(())` and the cache is untouched. -/
def create_dir (fs : CacheMap) (path : PathStr) (mkdirRes : Option PeerEntry) :
    Except FsError Unit × CacheMap :=
  match Cache.get fs path with
  | .ok _ => (.error FsError.Exists, fs)
  | .error _ =>
      let parent := parent_path path
      if parent ≠ ['/'] then
        match Cache.get fs parent with
        | .error e => (.error e, fs)
        | .ok node =>
            if !node.is_dir then (.error FsError.Forbidden, fs)
            else
              match mkdirRes with
              | some entry => (.ok (), Cache.insert fs path (PeerNode.from_api_entry entry))
              | none => (.ok (), fs)
      else
        match mkdirRes with
        | some entry => (.ok (), Cache.insert fs path (PeerNode.from_api_entry entry))
        | none => (.ok (), fs)

/-- `PeerFs::remove_dir` from src/fs.rs.  `rmOk` is the outcome of
`api.rm(&path)`. -/
def remove_dir (fs : CacheMap) (path : PathStr) (rmOk : Bool) :
    Except FsError Unit × CacheMap :=
  if rmOk then (.ok (), Cache.remove fs path) else (.ok (), fs)

/-- `PeerFs::remove_file` from src/fs.rs (same body as `remove_dir`). -/
def remove_file (fs : CacheMap) (path : PathStr) (rmOk : Bool) :
    Except FsError Unit × CacheMap :=
  if rmOk then (.ok (), Cache.remove fs path) else (.ok (), fs)

/-- `PeerFs::rename` from src/fs.rs.  `mvOk` is the outcome of
`api.mv(&from, &to)`. -/
def rename (fs : CacheMap) (fromP toP : PathStr) (mvOk : Bool) :
    Except FsError Unit × CacheMap :=
  if mvOk then (.ok (), Cache.mv_vals fs fromP toP) else (.ok (), fs)

/-- `PeerFs::copy` from src/fs.rs.  `cpOk` is the outcome of
`api.cp(&from, &to)`. -/
def copy (fs : CacheMap) (fromP toP : PathStr) (cpOk : Bool) :
    Except FsError Unit × CacheMap :=
  if cpOk then (.ok (), Cache.cp_vals fs fromP toP) else (.ok (), fs)

/-- `PeerFsFile::do_write` from src/fs.rs.  The result of `api.write` is
discarded by the source (`let _ = ...`), so no oracle argument is taken;
the issued request is returned alongside the updated handle. -/
def do_write (file : PeerFsFile) (buf : List Nat) : PeerFsFile × WriteCall :=
  let file1 := if file.append then { file with pos := file.size } else file
  let file2 := { file1 with size := file1.pos + buf.length }
  let call : WriteCall :=
    { path := file2.path, offset := file2.pos, truncate := file2.truncate, data := buf }
  let file3 := { file2 with pos := file2.size }
  ({ file3 with truncate := false }, call)

/-- `PeerFsFile::read_bytes` from src/fs.rs.  `readRes` is the outcome of
`api.read(&path, pos, count)`; the issued request is returned as well. -/
def read_bytes (file : PeerFsFile) (count : Nat) (readRes : Option (List Nat)) :
    Except FsError (List Nat) × PeerFsFile × ReadCall :=
  let call : ReadCall := { path := file.path, offset := file.pos, count := count }
  let file1 := { file with pos := file.pos + count }
  match readRes with
  | some bytes => (.ok bytes, file1, call)
  | none => (.error FsError.GeneralFailure, file1, call)

/-- The shared tail of `PeerFsFile::seek` for the `Current`/`End` arms:
`start` is the base (current position resp. known size) and `offset` the
signed offset. -/
def seekFromBase (file : PeerFsFile) (start : Nat) (offset : Int) :
    Except SeekError (Nat × PeerFsFile) :=
  if offset < 0 then
    if (-offset).toNat > start then .error SeekError.invalidInput
    else .ok (start - (-offset).toNat, { file with pos := start - (-offset).toNat })
  else .ok (start + offset.toNat, { file with pos := start + offset.toNat })

/-- `PeerFsFile::seek` from src/fs.rs.  Returns the reported position and
the updated handle. -/
def seek (file : PeerFsFile) (pos : SeekFrom) : Except SeekError (Nat × PeerFsFile) :=
  match pos with
  | .Start p => .ok (p, { file with pos := p })
  | .Current off => seekFromBase file file.pos off
  | .End off => seekFromBase file file.size off

/-- `PeerFsFile::flush` from src/fs.rs.  `flushOk` is the outcome of
`api.flush(&path)`. -/
def flush (fs : CacheMap) (file : PeerFsFile) (flushOk : Bool) :
    Except FsError Unit × CacheMap :=
  if flushOk then (.ok (), Cache.insert fs file.path (PeerNode.from_fs_file file))
  else (.ok (), fs)

/-- Lookup after removal: the removed key is gone, all others untouched. -/
theorem lookupMap_removeMap (k q : PathStr) (m : CacheMap) :
    lookupMap q (removeMap k m) = if q = k then none else lookupMap q m := by
  induction m with
  | nil => simp [removeMap, lookupMap]
  | cons hd tl ih =>
      obtain ⟨k', v⟩ := hd
      by_cases h1 : k' = k
      · subst h1
        by_cases h2 : q = k'
        · subst h2
          simp [removeMap, lookupMap, ih]
        · simp [removeMap, lookupMap, h2, ih]
      · by_cases h2 : q = k'
        · subst h2
          simp [removeMap, lookupMap, h1, ih, Ne.symm h1]
        · simp [removeMap, lookupMap, h1, h2, ih]

/-- Lookup distributes over append, preferring the left list. -/
theorem lookupMap_append (q : PathStr) (a b : CacheMap) :
    lookupMap q (a ++ b) =
      match lookupMap q a with
      | some v => some v
      | none => lookupMap q b := by
  induction a with
  | nil => simp [lookupMap]
  | cons hd tl ih =>
      obtain ⟨k', v⟩ := hd
      by_cases h : q = k' <;> simp [lookupMap, h, ih]

/-- Lookup after insertion: the inserted binding wins, others untouched. -/
theorem lookupMap_insertMap (k q : PathStr) (v : PeerNode) (m : CacheMap) :
    lookupMap q (insertMap k v m) = if q = k then some v else lookupMap q m := by
  unfold insertMap
  rw [lookupMap_append, lookupMap_removeMap]
  by_cases h : q = k
  · simp [h, lookupMap]
  · cases hm : lookupMap q m <;> simp [h, lookupMap, hm]

/-- `Cache.get` after `Cache.insert` at the same (un-normalized) path. -/
theorem Cache.get_insert_self (m : CacheMap) (p : PathStr) (v : PeerNode) :
    Cache.get (Cache.insert m p v) p = .ok v := by
  unfold Cache.get Cache.insert
  rw [lookupMap_insertMap]
  simp

/-- A fold of `mvStep` over entries whose original and rewritten keys all
differ from `q` does not change the binding of `q`. -/
theorem foldl_mvStep_untouched (f t : PathStr) (L : List (PathStr × PeerNode))
    (acc : CacheMap) (q : PathStr)
    (h1 : ∀ kv ∈ L, replaceOcc f t kv.1 ≠ q) (h2 : ∀ kv ∈ L, kv.1 ≠ q) :
    lookupMap q (L.foldl (mvStep f t) acc) = lookupMap q acc := by
  induction L generalizing acc with
  | nil => rfl
  | cons hd tl ih =>
      rw [List.foldl_cons]
      rw [ih (mvStep f t acc hd)
            (fun kv hkv => h1 kv (List.mem_cons_of_mem _ hkv))
            (fun kv hkv => h2 kv (List.mem_cons_of_mem _ hkv))]
      unfold mvStep
      rw [lookupMap_insertMap, lookupMap_removeMap]
      have hr := h1 hd (List.mem_cons_self _ _)
      have hk := h2 hd (List.mem_cons_self _ _)
      simp [Ne.symm hr, Ne.symm hk]

/-- A fold of `mvStep` over a list of entries with pairwise distinct
keys, injectively rewritten keys, and rewritten keys disjoint from the
original keys, binds each rewritten key to the original value and
removes each original key. -/
theorem foldl_mvStep_moved (f t : PathStr) (L : List (PathStr × PeerNode))
    (hnd : (L.map Prod.fst).Nodup)
    (hinj : ∀ kv ∈ L, ∀ kv' ∈ L, replaceOcc f t kv.1 = replaceOcc f t kv'.1 → kv.1 = kv'.1)
    (hfresh : ∀ kv ∈ L, ∀ kv' ∈ L, replaceOcc f t kv.1 ≠ kv'.1) :
    ∀ acc, ∀ kv ∈ L,
      lookupMap (replaceOcc f t kv.1) (L.foldl (mvStep f t) acc) = some kv.2 ∧
      lookupMap kv.1 (L.foldl (mvStep f t) acc) = none := by
  induction L with
  | nil => intro acc kv h; cases h
  | cons hd tl ih =>
      intro acc kv hkv
      rw [List.foldl_cons]
      rw [List.map_cons] at hnd
      have hnd' := List.nodup_cons.mp hnd
      rcases List.mem_cons.mp hkv with heq | htl
      · subst heq
        have huntouched1 : ∀ kv' ∈ tl, replaceOcc f t kv'.1 ≠ replaceOcc f t kv.1 := by
          intro kv' hkv' hcontra
          have := hinj kv' (List.mem_cons_of_mem _ hkv') kv (List.mem_cons_self _ _) hcontra
          exact hnd'.1 (this ▸ List.mem_map_of_mem Prod.fst hkv')
        have huntouched2 : ∀ kv' ∈ tl, kv'.1 ≠ replaceOcc f t kv.1 := by
          intro kv' hkv' hcontra
          exact hfresh kv (List.mem_cons_self _ _) kv' (List.mem_cons_of_mem _ hkv') hcontra.symm
        have huntouched3 : ∀ kv' ∈ tl, replaceOcc f t kv'.1 ≠ kv.1 := by
          intro kv' hkv' hcontra
          exact hfresh kv' (List.mem_cons_of_mem _ hkv') kv (List.mem_cons_self _ _) hcontra
        have huntouched4 : ∀ kv' ∈ tl, kv'.1 ≠ kv.1 := by
          intro kv' hkv' hcontra
          exact hnd'.1 (hcontra ▸ List.mem_map_of_mem Prod.fst hkv')
        constructor
        · rw [foldl_mvStep_untouched f t tl _ _ huntouched1 huntouched2]
          unfold mvStep
          rw [lookupMap_insertMap]
          simp
        · rw [foldl_mvStep_untouched f t tl _ _ huntouched3 huntouched4]
          unfold mvStep
          rw [lookupMap_insertMap, lookupMap_removeMap]
          have : kv.1 ≠ replaceOcc f t kv.1 :=
            fun h => hfresh kv (List.mem_cons_self _ _) kv (List.mem_cons_self _ _) h.symm
          simp [this]
      · exact ih hnd'.2
          (fun a ha b hb => hinj a (List.mem_cons_of_mem _ ha) b (List.mem_cons_of_mem _ hb))
          (fun a ha b hb => hfresh a (List.mem_cons_of_mem _ ha) b (List.mem_cons_of_mem _ hb))
          (mvStep f t acc hd) kv htl

/-- A successful `Cache.get` implies `Cache.contains`. -/
theorem Cache.contains_of_get (fs : CacheMap) (p : PathStr) (node : PeerNode)
    (h : Cache.get fs p = .ok node) : Cache.contains fs p = true := by
  unfold Cache.get at h
  unfold Cache.contains
  cases hl : lookupMap (normalize_hash p) fs with
  | none => rw [hl] at h; cases h
  | some v => simp [hl]

/-- A failed `Cache.contains` implies `Cache.get` misses. -/
theorem Cache.get_of_not_contains (fs : CacheMap) (p : PathStr)
    (h : Cache.contains fs p = false) : Cache.get fs p = .error FsError.NotFound := by
  unfold Cache.contains at h
  unfold Cache.get
  cases hl : lookupMap (normalize_hash p) fs with
  | none => rfl
  | some v => rw [hl] at h; cases h

/-- C6: for every open file handle with `append = false` and every byte
buffer written in a single `do_write` call, afterwards the handle's size
equals the position held before the write plus the length of the buffer,
and the handle's position equals that new size. -/
theorem c6_write_size_invariant (file : PeerFsFile) (buf : List Nat)
    (h : file.append = false) :
    (do_write file buf).1.size = file.pos + buf.length ∧
    (do_write file buf).1.pos = (do_write file buf).1.size := by
  simp [do_write, h]

/-- Witness for C6 at a concrete handle (position 3) and buffer (length 2). -/
theorem c6_write_size_invariant_witness :
    (do_write ⟨"/f".toList, 0, 0, 3, 9, false, true⟩ [7, 7]).1.size = 5 ∧
    (do_write ⟨"/f".toList, 0, 0, 3, 9, false, true⟩ [7, 7]).1.pos = 5 := by
  have h := c6_write_size_invariant ⟨"/f".toList, 0, 0, 3, 9, false, true⟩ [7, 7] rfl
  constructor
  · rw [h.1]
    decide
  · rw [h.2, h.1]
    decide

/-- C7: for every requested count, `read_bytes` issues a single
RemoteStore read at offset equal to the handle's current position, and
the handle's position advances by exactly `count`, regardless of how many
bytes the backend actually returned (the outcome `readRes` does not
influence the new handle state at all). -/
theorem c7_read_advances_by_count (file : PeerFsFile) (count : Nat)
    (readRes : Option (List Nat)) :
    (read_bytes file count readRes).2.2 =
      { path := file.path, offset := file.pos, count := count } ∧
    (read_bytes file count readRes).2.1 = { file with pos := file.pos + count } := by
  cases readRes <;> simp [read_bytes]

/-- C10: for every path and every combination of open options, `do_open`
leaves the MetadataCache completely unchanged (whether it returns a
handle or fails), and a file becomes visible in the cache through a
successful flush of its handle. -/
theorem c10_open_frame (fs : CacheMap) (path : PathStr) (options : OpenOptions) (now : Nat) :
    (do_open fs path options now).2 = fs ∧
    Cache.contains (do_open fs path options now).2 path = Cache.contains fs path ∧
    ∀ file : PeerFsFile,
      (flush fs file true).2 = Cache.insert fs file.path (PeerNode.from_fs_file file) := by
  have h2 : (do_open fs path options now).2 = fs := by
    unfold do_open
    cases hg : Cache.get fs path with
    | ok node =>
        cases node <;> by_cases hc : options.create_new <;> simp [hc]
    | error e =>
        cases e <;> simp <;> by_cases hc : options.create <;> simp [hc]
  exact ⟨h2, by rw [h2], fun file => by simp [flush]⟩

/-- C1: every mutating operation (create_dir, remove_dir, remove_file,
rename, copy, flush) swallows a RemoteStore failure — it still returns
`Ok(())` and leaves the cache completely unchanged — while on RemoteStore
success it applies the corresponding cache update (insert of the new
node, removal of the entry, `mv_vals`, `cp_vals`, or insert of the File
node synthesized from the handle).  For `create_dir` this concerns the
runs that reach the RemoteStore call, i.e. those passing the cache-side
validation. -/
theorem c1_mutating_ops_lenient (fs : CacheMap) (path fromP toP : PathStr)
    (file : PeerFsFile) :
    ((Cache.get fs path = .error FsError.NotFound) →
     (parent_path path = ['/'] ∨
        ∃ node, Cache.get fs (parent_path path) = .ok node ∧ node.is_dir = true) →
     (create_dir fs path none = (.ok (), fs) ∧
      ∀ entry, create_dir fs path (some entry) =
        (.ok (), Cache.insert fs path (PeerNode.from_api_entry entry)))) ∧
    (remove_dir fs path false = (.ok (), fs) ∧
     remove_dir fs path true = (.ok (), Cache.remove fs path)) ∧
    (remove_file fs path false = (.ok (), fs) ∧
     remove_file fs path true = (.ok (), Cache.remove fs path)) ∧
    (rename fs fromP toP false = (.ok (), fs) ∧
     rename fs fromP toP true = (.ok (), Cache.mv_vals fs fromP toP)) ∧
    (copy fs fromP toP false = (.ok (), fs) ∧
     copy fs fromP toP true = (.ok (), Cache.cp_vals fs fromP toP)) ∧
    (flush fs file false = (.ok (), fs) ∧
     flush fs file true = (.ok (), Cache.insert fs file.path (PeerNode.from_fs_file file))) := by
  refine ⟨?_, by simp [remove_dir], by simp [remove_file],
          by simp [rename], by simp [copy], by simp [flush]⟩
  intro hnc hpar
  rcases hpar with hp | ⟨node, hget, hdir⟩
  · simp [create_dir, hnc, hp]
  · by_cases hp : parent_path path = ['/']
    · simp [create_dir, hnc, hp]
    · simp [create_dir, hnc, hp, hget, hdir]

/-- Witness for C1 at concrete inputs: an empty cache, path `/x` (whose
parent is the root), and a concrete handle. -/
theorem c1_mutating_ops_lenient_witness :
    create_dir [] ("/x".toList) none = (.ok (), ([] : CacheMap)) ∧
    create_dir [] ("/x".toList)
        (some ⟨"/x".toList, 1, 2, true, 0⟩) =
      (.ok (), Cache.insert [] ("/x".toList)
        (PeerNode.from_api_entry ⟨"/x".toList, 1, 2, true, 0⟩)) ∧
    remove_dir [] ("/x".toList) false = (.ok (), ([] : CacheMap)) ∧
    flush [] ⟨"/q".toList, 7, 8, 2, 4, false, false⟩ true =
      (.ok (), Cache.insert [] ("/q".toList)
        (PeerNode.from_fs_file ⟨"/q".toList, 7, 8, 2, 4, false, false⟩)) := by
  have h := c1_mutating_ops_lenient [] ("/x".toList) ("/a".toList) ("/z".toList)
    ⟨"/q".toList, 7, 8, 2, 4, false, false⟩
  have hc := h.1 (by decide) (Or.inl (by decide))
  exact ⟨hc.1, hc.2 _, h.2.1.1, h.2.2.2.2.2.2⟩

/-- C3 counterexample: with `/d` cached as a directory and
`create_new = true`, `do_open` fails with Exists, not with Forbidden as
the claim's "cached as a directory fails Forbidden (for any options)"
clause states. -/
theorem c3_counterexample :
    (do_open [(("/d".toList), PeerNode.Dir ⟨0, 0, []⟩)] ("/d".toList)
        ⟨false, false, false, false, false, true⟩ 0).1 = .error FsError.Exists ∧
    (do_open [(("/d".toList), PeerNode.Dir ⟨0, 0, []⟩)] ("/d".toList)
        ⟨false, false, false, false, false, true⟩ 0).1 ≠ .error FsError.Forbidden := by
  decide

/-- C3 (amended): `do_open` decides against the cache as follows — not
cached and `create = false` fails NotFound; not cached and `create =
true` returns a handle with size 0; cached and `create_new = true` fails
Exists (this check precedes the directory check, so it also wins for
directories); cached as a directory with `create_new = false` fails
Forbidden; cached as a file with `create_new = false` returns a handle
seeded with the cached file's size. -/
theorem c3_open_matrix (fs : CacheMap) (path : PathStr) (o : OpenOptions) (now : Nat) :
    (Cache.get fs path = .error FsError.NotFound → o.create = false →
       (do_open fs path o now).1 = .error FsError.NotFound) ∧
    (Cache.get fs path = .error FsError.NotFound → o.create = true →
       (do_open fs path o now).1 =
         .ok { path := path, mtime := now, crtime := now, pos := 0, size := 0,
               append := o.append, truncate := o.truncate }) ∧
    (∀ node, Cache.get fs path = .ok node → o.create_new = true →
       (do_open fs path o now).1 = .error FsError.Exists) ∧
    (∀ d, Cache.get fs path = .ok (.Dir d) → o.create_new = false →
       (do_open fs path o now).1 = .error FsError.Forbidden) ∧
    (∀ f, Cache.get fs path = .ok (.File f) → o.create_new = false →
       (do_open fs path o now).1 =
         .ok { path := path, mtime := now, crtime := now, pos := 0, size := f.size,
               append := o.append, truncate := o.truncate }) := by
  refine ⟨fun hg hc => ?_, fun hg hc => ?_, fun node hg hc => ?_,
          fun d hg hc => ?_, fun f hg hc => ?_⟩
  · simp [do_open, hg, hc]
  · simp [do_open, hg, hc]
  · simp [do_open, hg, hc]
  · simp [do_open, hg, hc]
  · simp [do_open, hg, hc]

/-- Witness for C3 covering all five rows of the matrix at concrete
caches and options. -/
theorem c3_open_matrix_witness :
    (do_open [] ("/m".toList) ⟨true, false, false, false, false, false⟩ 0).1 =
      .error FsError.NotFound ∧
    (do_open [] ("/m".toList) ⟨false, true, false, true, true, false⟩ 3).1 =
      .ok { path := "/m".toList, mtime := 3, crtime := 3, pos := 0, size := 0,
            append := false, truncate := true } ∧
    (do_open [(("/d".toList), PeerNode.Dir ⟨0, 0, []⟩)] ("/d".toList)
        ⟨false, false, false, false, false, true⟩ 0).1 = .error FsError.Exists ∧
    (do_open [(("/d".toList), PeerNode.Dir ⟨0, 0, []⟩)] ("/d".toList)
        ⟨true, false, false, false, false, false⟩ 0).1 = .error FsError.Forbidden ∧
    (do_open [(("/g".toList), PeerNode.File ⟨0, 0, [], 10⟩)] ("/g".toList)
        ⟨true, false, true, false, false, false⟩ 4).1 =
      .ok { path := "/g".toList, mtime := 4, crtime := 4, pos := 0, size := 10,
            append := true, truncate := false } := by
  refine ⟨?_, ?_, ?_, ?_, ?_⟩
  · exact (c3_open_matrix [] ("/m".toList) ⟨true, false, false, false, false, false⟩ 0).1
      (by decide) rfl
  · exact (c3_open_matrix [] ("/m".toList) ⟨false, true, false, true, true, false⟩ 3).2.1
      (by decide) rfl
  · exact (c3_open_matrix [(("/d".toList), PeerNode.Dir ⟨0, 0, []⟩)] ("/d".toList)
      ⟨false, false, false, false, false, true⟩ 0).2.2.1 (PeerNode.Dir ⟨0, 0, []⟩)
      (by decide) rfl
  · exact (c3_open_matrix [(("/d".toList), PeerNode.Dir ⟨0, 0, []⟩)] ("/d".toList)
      ⟨true, false, false, false, false, false⟩ 0).2.2.2.1 ⟨0, 0, []⟩ (by decide) rfl
  · exact (c3_open_matrix [(("/g".toList), PeerNode.File ⟨0, 0, [], 10⟩)] ("/g".toList)
      ⟨true, false, true, false, false, false⟩ 4).2.2.2.2 ⟨0, 0, [], 10⟩ (by decide) rfl

/-- C4 counterexample: the normalization used for cache keys
(`normalize_hash`) strips the slash from the root as well, mapping `"/"`
to the empty string rather than to `"/"` as the claim states. -/
theorem c4_counterexample : normalize_hash ("/".toList) ≠ "/".toList := by decide

/-- C4 (amended): `normalize_hash` (the cache-key normalization) strips
exactly ONE trailing slash when one is present — so a path with two
trailing slashes keeps one, and the root `"/"` is mapped to the empty
string, not preserved; the api-level `normalize_path` is the variant that
preserves the root.  Two paths address the same cache entry (under
`Cache.get`, for every cache state) iff they normalize identically under
`normalize_hash`. -/
theorem c4_normalization (p q : PathStr) :
    (p.getLast? = some '/' → normalize_hash p = p.dropLast) ∧
    (¬ p.getLast? = some '/' → normalize_hash p = p) ∧
    normalize_hash ("/".toList) = [] ∧
    normalize_path ("/".toList) = "/".toList ∧
    normalize_hash ("/a//".toList) = "/a/".toList ∧
    (normalize_hash p = normalize_hash q ↔ ∀ m : CacheMap, Cache.get m p = Cache.get m q) := by
  refine ⟨fun h => by simp [normalize_hash, h], fun h => by simp [normalize_hash, h],
          by decide, by decide, by decide, ?_⟩
  constructor
  · intro h m
    unfold Cache.get
    rw [h]
  · intro h
    by_contra hne
    have hinst := h [(normalize_hash p, PeerNode.Dir ⟨0, 0, []⟩)]
    have h1 : lookupMap (normalize_hash p) [(normalize_hash p, PeerNode.Dir ⟨0, 0, []⟩)] =
        some (PeerNode.Dir ⟨0, 0, []⟩) := by simp [lookupMap]
    have h2 : lookupMap (normalize_hash q) [(normalize_hash p, PeerNode.Dir ⟨0, 0, []⟩)] =
        none := by
      simp only [lookupMap]
      rw [if_neg (fun hh => hne hh.symm)]
    unfold Cache.get at hinst
    rw [h1, h2] at hinst
    cases hinst

/-- Witness for C4: concrete instances of the amended statement at
`p = "/a/"`, `q = "/a"`. -/
theorem c4_normalization_witness :
    normalize_hash ("/a/".toList) = "/a".toList ∧
    Cache.get [(("/a".toList), PeerNode.Dir ⟨0, 0, []⟩)] ("/a/".toList) =
      Cache.get [(("/a".toList), PeerNode.Dir ⟨0, 0, []⟩)] ("/a".toList) := by
  have h := c4_normalization ("/a/".toList) ("/a".toList)
  constructor
  · rw [h.1 (by decide)]
    decide
  · exact (h.2.2.2.2.2.mp (by decide)) [(("/a".toList), PeerNode.Dir ⟨0, 0, []⟩)]

/-- C5 counterexample: on an empty cache, `create_dir("/x/y")` (whose
parent `/x` is absent) fails with NotFound, not with Forbidden as the
claim states. -/
theorem c5_counterexample :
    (create_dir [] ("/x/y".toList) none).1 = .error FsError.NotFound ∧
    (create_dir [] ("/x/y".toList) none).1 ≠ .error FsError.Forbidden := by
  decide

/-- C5 (amended): `create_dir` fails with Exists whenever the path is
already cached; when the path is not cached and its parent is neither the
root nor cached, it fails with NotFound (the cache miss is propagated
as-is); when the parent is cached as a non-directory it fails with
Forbidden.  All three failures happen before any RemoteStore call: the
result does not depend on the `mkdirRes` oracle and the cache is
unchanged.  (`rstripSlashes path ≠ []` excludes the root path, on which
the Rust source would panic in `parent().unwrap()`.) -/
theorem c5_create_dir_guards (fs : CacheMap) (path : PathStr) (mkdirRes : Option PeerEntry) :
    (∀ node, Cache.get fs path = .ok node →
       create_dir fs path mkdirRes = (.error FsError.Exists, fs)) ∧
    (rstripSlashes path ≠ [] →
     Cache.get fs path = .error FsError.NotFound →
     parent_path path ≠ ['/'] →
     Cache.get fs (parent_path path) = .error FsError.NotFound →
       create_dir fs path mkdirRes = (.error FsError.NotFound, fs)) ∧
    (∀ node, rstripSlashes path ≠ [] →
     Cache.get fs path = .error FsError.NotFound →
     parent_path path ≠ ['/'] →
     Cache.get fs (parent_path path) = .ok node → node.is_dir = false →
       create_dir fs path mkdirRes = (.error FsError.Forbidden, fs)) := by
  refine ⟨fun node hg => ?_, fun _ hg hp hpar => ?_, fun node _ hg hp hpar hdir => ?_⟩
  · simp [create_dir, hg]
  · simp [create_dir, hg, hp, hpar]
  · simp [create_dir, hg, hp, hpar, hdir]

/-- Witness for C5: the three guard failures at concrete caches. -/
theorem c5_create_dir_guards_witness :
    create_dir [(("/x".toList), PeerNode.Dir ⟨0, 0, []⟩)] ("/x".toList) none =
      (.error FsError.Exists, [(("/x".toList), PeerNode.Dir ⟨0, 0, []⟩)]) ∧
    create_dir [] ("/x/y".toList) none = (.error FsError.NotFound, ([] : CacheMap)) ∧
    create_dir [(("/x".toList), PeerNode.File ⟨0, 0, [], 3⟩)] ("/x/y".toList) none =
      (.error FsError.Forbidden, [(("/x".toList), PeerNode.File ⟨0, 0, [], 3⟩)]) := by
  refine ⟨?_, ?_, ?_⟩
  · exact (c5_create_dir_guards [(("/x".toList), PeerNode.Dir ⟨0, 0, []⟩)]
      ("/x".toList) none).1 (PeerNode.Dir ⟨0, 0, []⟩) (by decide)
  · exact (c5_create_dir_guards [] ("/x/y".toList) none).2.1
      (by decide) (by decide) (by decide) (by decide)
  · exact (c5_create_dir_guards [(("/x".toList), PeerNode.File ⟨0, 0, [], 3⟩)]
      ("/x/y".toList) none).2.2 (PeerNode.File ⟨0, 0, [], 3⟩)
      (by decide) (by decide) (by decide) (by decide) (by decide)

/-- C2 counterexample: on a cache holding the single key `/a/a`,
`mv_vals("/a", "/z")` does NOT reinsert the entry under `/z/a` (the
leading-prefix replacement the claim describes); the Rust
`str::replace` rewrites every occurrence of `/a`, so the entry lands
under `/z/z`. -/
theorem c2_counterexample :
    lookupMap ("/z/a".toList)
      (Cache.mv_vals [(("/a/a".toList), PeerNode.File ⟨0, 0, [], 1⟩)]
        ("/a".toList) ("/z".toList)) = none ∧
    lookupMap ("/z/z".toList)
      (Cache.mv_vals [(("/a/a".toList), PeerNode.File ⟨0, 0, [], 1⟩)]
        ("/a".toList) ("/z".toList)) = some (PeerNode.File ⟨0, 0, [], 1⟩) := by
  decide

/-- C2 (amended): `mv_vals(from, to)` removes exactly the entries whose
key equals `from` or starts with `from + "/"` and reinserts each under
`key.replace(from, to)` — a replacement of EVERY occurrence of `from` in
the key, which coincides with replacing the leading prefix only when
`from` does not reappear in the suffix; values are unchanged and every
other entry (including keys that merely contain `from`, such as `/ab`
for `from = /a`) is untouched.  Stated for normalized arguments, caches
with distinct keys, and rewrites that neither collide with each other
nor with existing keys (as in the claim's example, where the result on
keys `{/a, /a/b, /ab}` is exactly `{/z, /z/b, /ab}`). -/
theorem c2_move_values (fs : CacheMap) (fromP toP : PathStr)
    (hnf : normalize_hash fromP = fromP) (hnt : normalize_hash toP = toP)
    (hne : fromP ≠ [])
    (hnd : (fs.map Prod.fst).Nodup)
    (hfresh : ∀ kv ∈ fs, matchKey fromP kv.1 = true →
        ∀ kv' ∈ fs, replaceOcc fromP toP kv.1 ≠ kv'.1)
    (hinj : ∀ kv ∈ fs, ∀ kv' ∈ fs, matchKey fromP kv.1 = true → matchKey fromP kv'.1 = true →
        replaceOcc fromP toP kv.1 = replaceOcc fromP toP kv'.1 → kv.1 = kv'.1) :
    (∀ kv ∈ fs, matchKey fromP kv.1 = true →
        lookupMap (replaceOcc fromP toP kv.1) (Cache.mv_vals fs fromP toP) = some kv.2 ∧
        lookupMap kv.1 (Cache.mv_vals fs fromP toP) = none) ∧
    (∀ q, matchKey fromP q = false →
        (∀ kv ∈ fs, matchKey fromP kv.1 = true → replaceOcc fromP toP kv.1 ≠ q) →
        lookupMap q (Cache.mv_vals fs fromP toP) = lookupMap q fs) ∧
    (Cache.mv_vals
        [(("/a".toList), PeerNode.Dir ⟨0, 0, []⟩),
         (("/a/b".toList), PeerNode.File ⟨0, 0, [], 1⟩),
         (("/ab".toList), PeerNode.File ⟨0, 0, [], 2⟩)]
        ("/a".toList) ("/z".toList) =
      [(("/ab".toList), PeerNode.File ⟨0, 0, [], 2⟩),
       (("/z".toList), PeerNode.Dir ⟨0, 0, []⟩),
       (("/z/b".toList), PeerNode.File ⟨0, 0, [], 1⟩)]) := by
  have hmv : Cache.mv_vals fs fromP toP =
      (fs.filter (fun kv => matchKey fromP kv.1)).foldl (mvStep fromP toP) fs := by
    unfold Cache.mv_vals
    rw [hnf, hnt]
  have hmemL : ∀ kv, kv ∈ fs.filter (fun kv => matchKey fromP kv.1) ↔
      kv ∈ fs ∧ matchKey fromP kv.1 = true := by
    intro kv
    exact List.mem_filter
  have hndL : ((fs.filter (fun kv => matchKey fromP kv.1)).map Prod.fst).Nodup :=
    hnd.sublist (List.Sublist.map Prod.fst (List.filter_sublist fs))
  refine ⟨?_, ?_, by decide⟩
  · intro kv hkv hm
    rw [hmv]
    refine foldl_mvStep_moved fromP toP _ hndL ?_ ?_ fs kv ((hmemL kv).mpr ⟨hkv, hm⟩)
    · intro a ha b hb
      exact hinj a ((hmemL a).mp ha).1 b ((hmemL b).mp hb).1
        ((hmemL a).mp ha).2 ((hmemL b).mp hb).2
    · intro a ha b hb
      exact hfresh a ((hmemL a).mp ha).1 ((hmemL a).mp ha).2 b ((hmemL b).mp hb).1
  · intro q hq hfr
    rw [hmv]
    refine foldl_mvStep_untouched fromP toP _ fs q ?_ ?_
    · intro kv hkv
      exact hfr kv ((hmemL kv).mp hkv).1 ((hmemL kv).mp hkv).2
    · intro kv hkv hcontra
      have := ((hmemL kv).mp hkv).2
      rw [hcontra] at this
      rw [this] at hq
      cases hq

/-- Witness for C2 at the claim's own example cache: the entry at
`/a/b` is reinserted at `/z/b` with its value unchanged, and the
non-matching key `/ab` is untouched. -/
theorem c2_move_values_witness :
    lookupMap ("/z/b".toList)
      (Cache.mv_vals
        [(("/a".toList), PeerNode.Dir ⟨0, 0, []⟩),
         (("/a/b".toList), PeerNode.File ⟨0, 0, [], 1⟩),
         (("/ab".toList), PeerNode.File ⟨0, 0, [], 2⟩)]
        ("/a".toList) ("/z".toList)) = some (PeerNode.File ⟨0, 0, [], 1⟩) ∧
    lookupMap ("/ab".toList)
      (Cache.mv_vals
        [(("/a".toList), PeerNode.Dir ⟨0, 0, []⟩),
         (("/a/b".toList), PeerNode.File ⟨0, 0, [], 1⟩),
         (("/ab".toList), PeerNode.File ⟨0, 0, [], 2⟩)]
        ("/a".toList) ("/z".toList)) =
      lookupMap ("/ab".toList)
        [(("/a".toList), PeerNode.Dir ⟨0, 0, []⟩),
         (("/a/b".toList), PeerNode.File ⟨0, 0, [], 1⟩),
         (("/ab".toList), PeerNode.File ⟨0, 0, [], 2⟩)] := by
  have h := c2_move_values
    [(("/a".toList), PeerNode.Dir ⟨0, 0, []⟩),
     (("/a/b".toList), PeerNode.File ⟨0, 0, [], 1⟩),
     (("/ab".toList), PeerNode.File ⟨0, 0, [], 2⟩)]
    ("/a".toList) ("/z".toList)
    (by decide) (by decide) (by decide) (by decide) (by decide) (by decide)
  constructor
  · exact (h.1 (("/a/b".toList), PeerNode.File ⟨0, 0, [], 1⟩) (by decide) (by decide)).1
  · exact h.2.1 ("/ab".toList) (by decide) (by decide)

/-- Characterization of the shared `Current`/`End` tail of `seek`:
failure exactly on negative offsets whose magnitude exceeds the base,
otherwise the position becomes base plus offset. -/
theorem seekFromBase_spec (file : PeerFsFile) (start : Nat) (n : Int) :
    (seekFromBase file start n = .error SeekError.invalidInput ↔
        n < 0 ∧ start < n.natAbs) ∧
    (n < 0 → n.natAbs ≤ start →
        seekFromBase file start n =
          .ok (start - n.natAbs, { file with pos := start - n.natAbs })) ∧
    (0 ≤ n →
        seekFromBase file start n =
          .ok (start + n.toNat, { file with pos := start + n.toNat })) := by
  refine ⟨?_, ?_, ?_⟩
  · unfold seekFromBase
    by_cases hn : n < 0
    · by_cases hgt : (-n).toNat > start
      · rw [if_pos hn, if_pos hgt]
        exact ⟨fun _ => ⟨hn, by omega⟩, fun _ => rfl⟩
      · rw [if_pos hn, if_neg hgt]
        constructor
        · intro h
          exact Except.noConfusion h
        · rintro ⟨_, h2⟩
          exfalso
          omega
    · rw [if_neg hn]
      constructor
      · intro h
        exact Except.noConfusion h
      · rintro ⟨h1, _⟩
        exact absurd h1 hn
  · intro h1 h2
    unfold seekFromBase
    rw [if_pos h1, if_neg (by omega : ¬ (-n).toNat > start)]
    have heq : start - (-n).toNat = start - n.natAbs := by omega
    rw [heq]
  · intro h1
    unfold seekFromBase
    rw [if_neg (by omega : ¬ n < 0)]

/-- C8: `seek` from Current (base = current position) or End (base =
known size) with a negative offset fails with the invalid-argument error
exactly when the offset's magnitude exceeds the base, and otherwise sets
the position to base plus offset; `seek` from Start sets the position to
the given offset unconditionally, with no validation against the size. -/
theorem c8_seek_bounds (file : PeerFsFile) :
    (∀ p : Nat, seek file (.Start p) = .ok (p, { file with pos := p })) ∧
    (∀ n : Int, seek file (.Current n) = .error SeekError.invalidInput ↔
        n < 0 ∧ file.pos < n.natAbs) ∧
    (∀ n : Int, n < 0 → n.natAbs ≤ file.pos →
        seek file (.Current n) =
          .ok (file.pos - n.natAbs, { file with pos := file.pos - n.natAbs })) ∧
    (∀ n : Int, 0 ≤ n →
        seek file (.Current n) =
          .ok (file.pos + n.toNat, { file with pos := file.pos + n.toNat })) ∧
    (∀ n : Int, seek file (.End n) = .error SeekError.invalidInput ↔
        n < 0 ∧ file.size < n.natAbs) ∧
    (∀ n : Int, n < 0 → n.natAbs ≤ file.size →
        seek file (.End n) =
          .ok (file.size - n.natAbs, { file with pos := file.size - n.natAbs })) ∧
    (∀ n : Int, 0 ≤ n →
        seek file (.End n) =
          .ok (file.size + n.toNat, { file with pos := file.size + n.toNat })) := by
  exact ⟨fun p => rfl,
         fun n => (seekFromBase_spec file file.pos n).1,
         fun n => (seekFromBase_spec file file.pos n).2.1,
         fun n => (seekFromBase_spec file file.pos n).2.2,
         fun n => (seekFromBase_spec file file.size n).1,
         fun n => (seekFromBase_spec file file.size n).2.1,
         fun n => (seekFromBase_spec file file.size n).2.2⟩

/-- Witness for C8 at a concrete handle with position 5 and size 8. -/
theorem c8_seek_bounds_witness :
    seek ⟨"/f".toList, 0, 0, 5, 8, false, false⟩ (.Current (-7)) =
      .error SeekError.invalidInput ∧
    seek ⟨"/f".toList, 0, 0, 5, 8, false, false⟩ (.Current (-3)) =
      .ok (2, ⟨"/f".toList, 0, 0, 2, 8, false, false⟩) ∧
    seek ⟨"/f".toList, 0, 0, 5, 8, false, false⟩ (.End 4) =
      .ok (12, ⟨"/f".toList, 0, 0, 12, 8, false, false⟩) ∧
    seek ⟨"/f".toList, 0, 0, 5, 8, false, false⟩ (.Start 100) =
      .ok (100, ⟨"/f".toList, 0, 0, 100, 8, false, false⟩) := by
  have h := c8_seek_bounds ⟨"/f".toList, 0, 0, 5, 8, false, false⟩
  refine ⟨?_, ?_, ?_, ?_⟩
  · exact (h.2.1 (-7)).mpr ⟨by decide, by decide⟩
  · exact (h.2.2.1 (-3) (by decide) (by decide)).trans (by decide)
  · exact (h.2.2.2.2.2.2 4 (by decide)).trans (by decide)
  · exact (h.1 100).trans (by decide)

/-- C9: `metadata` on a cache hit returns the cached node's metadata view
with no RemoteStore call (the third component, the "stat call issued"
flag, is false); on a miss it issues the stat and, on success, inserts
the resulting node into the cache before returning its view; if the stat
fails, the operation fails with NotFound.  Consequently, after listing a
directory containing a file of size 10, `metadata` on that file's path
returns size 10 with no further backend call. -/
theorem c9_metadata_cache (fs : CacheMap) (path : PathStr) (statRes : Option PeerEntry) :
    (∀ node, Cache.get fs path = .ok node →
        metadata fs path statRes = (.ok (node.to_entry path), fs, false)) ∧
    (Cache.contains fs path = false → ∀ entry,
        metadata fs path (some entry) =
          (.ok ((PeerNode.from_api_entry entry).to_entry path),
           Cache.insert fs path (PeerNode.from_api_entry entry), true)) ∧
    (Cache.contains fs path = false →
        metadata fs path none = (.error FsError.NotFound, fs, true)) ∧
    ((metadata (read_dir [] (some [⟨"/dir/f".toList, 5, 6, false, 10⟩])).2
        ("/dir/f".toList) none).1 = .ok ⟨6, 5, false, "f".toList, 10⟩ ∧
     (metadata (read_dir [] (some [⟨"/dir/f".toList, 5, 6, false, 10⟩])).2
        ("/dir/f".toList) none).2.2 = false) := by
  refine ⟨?_, ?_, ?_, by decide⟩
  · intro node hg
    have hc := Cache.contains_of_get fs path node hg
    simp [metadata, hc, hg]
  · intro hc entry
    simp [metadata, hc, Cache.get_insert_self]
  · intro hc
    have hg := Cache.get_of_not_contains fs path hc
    simp [metadata, hc, hg]

/-- Witness for C9: a cache hit at a concrete one-entry cache returns
the cached size with the stat flag false. -/
theorem c9_metadata_cache_witness :
    metadata [(("/f".toList), PeerNode.File ⟨1, 2, [], 10⟩)] ("/f".toList) none =
      (.ok ⟨1, 2, false, "f".toList, 10⟩,
       [(("/f".toList), PeerNode.File ⟨1, 2, [], 10⟩)], false) := by
  have h := (c9_metadata_cache [(("/f".toList), PeerNode.File ⟨1, 2, [], 10⟩)]
    ("/f".toList) none).1 (PeerNode.File ⟨1, 2, [], 10⟩) (by decide)
  exact h.trans (by decide)
